import Mathlib

/-
  Verification development for the hedera-evm-bridge-validator core.

  The definitions below are a shallow embedding of the validator's message
  service (app/services/messages — Service.SanityCheckSignature,
  Service.ProcessSignature, Service.verifySignature,
  Service.VerifyEthereumTxAuthenticity, Service.ProcessEthereumTxMessage),
  of the topic-message codec (app/model/message), of the crypto-transfer
  watcher (app/process/watcher/crypto-transfer) and of the transfer state
  machine described by the repository's persistence layer.  External
  collaborators (the ECDSA library, the ABI decoder, the contracts service,
  the mirror node) are modelled as function-valued fields of an environment
  record, so the embedded operations are parametric in them exactly as the
  Go code is parametric in its injected clients.
-/

/-- Transfer status values of the transfer state machine (persistence layer
    status constants, normalized as in the state-machine DAG). -/
inductive Status where
  | initial
  | signatureSubmitted
  | signatureMined
  | ethTxSubmitted
  | ethTxMined
  | ethTxReverted
  | insufficientFee
  | signatureFailed
deriving DecidableEq

/-- Whether a status is EthTxSubmitted or a later state of the DAG. -/
def Status.atLeastEthTxSubmitted : Status → Bool
  | .ethTxSubmitted => true
  | .ethTxMined => true
  | .ethTxReverted => true
  | _ => false

/-- A row of the Transfer aggregate (entity.Transfer). -/
structure Transfer where
  transactionID : String
  receiver : String
  amount : String
  txReimbursement : String
  gasPrice : String
  nativeToken : String
  wrappedToken : String
  status : Status
  ethTxHash : Option String
deriving DecidableEq

/-- A row of the Message aggregate (entity.Message): a received signature. -/
structure MessageRow where
  transferID : String
  signature : String
  hash : String
  signer : String
  transactionTimestamp : Int
deriving DecidableEq

/-- The persisted state: the Transfer table and the Message table. -/
structure BridgeState where
  transfers : List Transfer
  messages : List MessageRow
deriving DecidableEq

/-- A TopicEthSignatureMessage as received from the bridge topic,
    with the receive-time transaction timestamp attached. -/
structure SigMsg where
  transferID : String
  receiver : String
  amount : String
  txReimbursement : String
  gasPrice : String
  signature : String
  wrappedToken : String
  transactionTimestamp : Int
deriving DecidableEq

/-- A TopicEthTransactionMessage as received from the bridge topic. -/
structure EthTxMsg where
  transferID : String
  hash : String
  ethTxHash : String
deriving DecidableEq

/-- An Ethereum transaction as returned by TransactionByHash:
    its to-address and its call data. -/
structure EthTx where
  toAddr : String
  callData : List Nat
deriving DecidableEq

/-- Result of ethhelper.DecodeBridgeMintFunction: either the decoded mint
    arguments, or the dedicated invalid-parameters error, or another error. -/
inductive MintDecode where
  | ok (txId ethAddress wrappedToken amount txReimbursement : String)
       (signatures : List (List Nat))
  | invalidParams
  | failed
deriving DecidableEq

/-- An incoming transfer message (encoding.TransferMessage) produced by the
    crypto-transfer watcher from the originating credit. -/
structure TransferMsg where
  transactionID : String
  receiver : String
  amount : String
  txReimbursement : String
  gasPrice : String
  nativeToken : String
  wrappedToken : String
deriving DecidableEq

/-- The environment of the message service: the injected collaborators of
    messages.Service.  members and bridgeAddress model the contracts
    service caches; parseToken models Contracts.ParseToken; encodeAuth
    models auth_message.EncodeBytesFrom; decodeSig models
    ethhelper.DecodeSignature; recover models crypto.Ecrecover followed by
    PubkeyToAddress (also ethhelper.RecoverSignerFromBytes); sign models
    the node's Signer; decodeMint models ethhelper.DecodeBridgeMintFunction;
    ethTxs models the E-chain as seen through TransactionByHash; threshold
    models the multisig contract's threshold for the members set. -/
structure Env where
  members : List String
  threshold : Nat
  bridgeAddress : String
  parseToken : String → Option String
  encodeAuth : String → String → String → String → String → Option (List Nat)
  decodeSig : String → Option (List Nat × String)
  recover : List Nat → List Nat → Option String
  sign : List Nat → Option String
  decodeMint : List Nat → MintDecode
  ethTxs : List (String × EthTx)

/-- Lower-case hex digit for a value below 16 (hex.EncodeToString digit). -/
def hexDigitChar (n : Nat) : Char :=
  if n < 10 then Char.ofNat (48 + n) else Char.ofNat (87 + n)

/-- Models hex.EncodeToString over a byte list. -/
def hexEncode (bs : List Nat) : String :=
  String.mk (bs.foldr (fun b acc => hexDigitChar (b / 16 % 16) :: hexDigitChar (b % 16) :: acc) [])

/-- Models transferRepository.GetByTransactionId over the embedded state. -/
def lookupTransfer (st : BridgeState) (id : String) : Option Transfer :=
  st.transfers.find? (fun t => t.transactionID == id)

/-- Models Service.awaitTransfer: the Go code polls the Transfer table until
    the row appears; here the row is returned when present and the blocked
    (or DB-error) case is none. -/
def awaitTransfer (st : BridgeState) (id : String) : Option Transfer :=
  lookupTransfer st id

/-- Models Service.SanityCheckSignature: resolve the transfer row, parse the
    native token into the wrapped token, and compare receiver, amount,
    tx-reimbursement and wrapped token with the topic message.  none models
    the error (or forever-blocking) paths. -/
def sanityCheckSignature (env : Env) (st : BridgeState) (tm : SigMsg) : Option Bool :=
  match awaitTransfer st tm.transferID with
  | none => none
  | some t =>
    match env.parseToken t.nativeToken with
    | none => none
    | some wrappedToken =>
      some (t.receiver == tm.receiver && t.amount == tm.amount &&
            t.txReimbursement == tm.txReimbursement && tm.wrappedToken == wrappedToken)

/-- Models Service.verifySignature: recover the signer address from the
    authorization digest and the signature bytes, and reject it when the
    address is not a bridge member.  none models the error returns. -/
def verifySignatureOp (env : Env) (authMsgBytes sigBytes : List Nat) : Option String :=
  match env.recover authMsgBytes sigBytes with
  | none => none
  | some address => if env.members.contains address then some address else none

/-- Models messageRepository.Exist(transferID, signatureHex, hash). -/
def messageExists (st : BridgeState) (id sigHex hashStr : String) : Bool :=
  st.messages.any (fun m => m.transferID == id && m.signature == sigHex && m.hash == hashStr)

/-- Outcome of ProcessSignature: either the nil error or a non-nil error. -/
inductive PSResult where
  | ok
  | err
deriving DecidableEq

/-- Models Service.ProcessSignature, step for step: encode the authorization
    digest from the message fields, decode the signature, return the nil
    error when the (transferID, signatureHex, digestHex) row already exists,
    verify the signature and persist the new Message row.  The duplicate
    branch returns the current value of the err variable, which is nil. -/
def processSignature (env : Env) (st : BridgeState) (tm : SigMsg) : BridgeState × PSResult :=
  match env.encodeAuth tm.transferID tm.wrappedToken tm.receiver tm.amount tm.txReimbursement with
  | none => (st, .err)
  | some authMsgBytes =>
    match env.decodeSig tm.signature with
    | none => (st, .err)
    | some (sigBytes, sigHex) =>
      let authMessageStr := hexEncode authMsgBytes
      if messageExists st tm.transferID sigHex authMessageStr then
        (st, .ok)
      else
        match verifySignatureOp env authMsgBytes sigBytes with
        | none => (st, .err)
        | some address =>
          ({ st with
             messages := st.messages ++
               [{ transferID := tm.transferID, signature := sigHex,
                  hash := authMessageStr, signer := address,
                  transactionTimestamp := tm.transactionTimestamp }] }, .ok)

/-- A Go (bool, error) pair: the flag and whether the error is non-nil. -/
structure GoBoolErr where
  val : Bool
  isErr : Bool
deriving DecidableEq

/-- ASCII lower-casing of one character (strings.ToLower on the ASCII
    alphabet of E-chain hex addresses). -/
def charLower (c : Char) : Char :=
  if 65 ≤ c.toNat ∧ c.toNat ≤ 90 then Char.ofNat (c.toNat + 32) else c

/-- Models strings.ToLower over the ASCII strings the service compares. -/
def strToLower (str : String) : String :=
  String.mk (str.data.map charLower)

/-- Models ethClient TransactionByHash over the environment's E-chain. -/
def lookupEthTx (env : Env) (h : String) : Option EthTx :=
  (env.ethTxs.find? (fun p => p.fst == h)).map Prod.snd

/-- Models the signatures loop of Service.VerifyEthereumTxAuthenticity:
    recover every signer, fail with an error when recovery fails, return
    false when an address repeats (the Go code returns the nil err there)
    or is not a member. -/
def checkSigs (env : Env) (msgHash : List Nat) (checked : List String) :
    List (List Nat) → GoBoolErr
  | [] => ⟨true, false⟩
  | s :: rest =>
    match env.recover msgHash s with
    | none => ⟨false, true⟩
    | some address =>
      if checked.contains address then ⟨false, false⟩
      else if env.members.contains address then checkSigs env msgHash (address :: checked) rest
      else ⟨false, false⟩

/-- Models Service.VerifyEthereumTxAuthenticity, branch for branch. -/
def verifyEthereumTxAuthenticity (env : Env) (st : BridgeState) (etm : EthTxMsg) : GoBoolErr :=
  match lookupEthTx env etm.ethTxHash with
  | none => ⟨false, true⟩
  | some tx =>
    if strToLower tx.toAddr = strToLower env.bridgeAddress then
      match env.decodeMint tx.callData with
      | .invalidParams => ⟨false, false⟩
      | .failed => ⟨false, true⟩
      | .ok txId ethAddress wrappedToken amount txReimbursement signatures =>
        if txId = etm.transferID then
          match lookupTransfer st etm.transferID with
          | none => ⟨false, false⟩
          | some dbTx =>
            if dbTx.amount = amount ∧ dbTx.receiver = ethAddress ∧
               dbTx.txReimbursement = txReimbursement ∧ wrappedToken = dbTx.wrappedToken then
              match env.encodeAuth txId wrappedToken ethAddress amount txReimbursement with
              | none => ⟨false, true⟩
              | some messageHash => checkSigs env messageHash [] signatures
            else ⟨false, false⟩
        else ⟨false, false⟩
    else ⟨false, false⟩

/-- Models the conditional update UpdateEthTxSubmitted: set the status to
    EthTxSubmitted and record the hash, conditional on the allowed
    predecessor state. -/
def updateEthTxSubmitted (st : BridgeState) (id hash : String) : BridgeState :=
  { st with
    transfers := st.transfers.map (fun t =>
      if t.transactionID == id && t.status == Status.signatureMined then
        { t with status := .ethTxSubmitted, ethTxHash := some hash }
      else t) }

/-- Models a conditional status update (WHERE status IN preds). -/
def updateStatus (st : BridgeState) (id : String) (preds : List Status) (s : Status) : BridgeState :=
  { st with
    transfers := st.transfers.map (fun t =>
      if t.transactionID == id && preds.contains t.status then { t with status := s } else t) }

/-- Models Service.ProcessEthereumTxMessage: update the row to
    EthTxSubmitted with the hash from the topic message. -/
def processEthereumTxMessage (st : BridgeState) (etm : EthTxMsg) : BridgeState :=
  updateEthTxSubmitted st etm.transferID etm.ethTxHash

/-- Modelled from the spec: the handler dispatch for a topic EthTransaction
    hash message (the handler itself is outside the embedded sources; §4.4
    step "VerifyEthereumTxAuthenticity ... any mismatch → drop", then
    "update status to EthTxSubmitted").  A rejected message is dropped. -/
def handleEthTxMessage (env : Env) (st : BridgeState) (etm : EthTxMsg) : BridgeState :=
  if (verifyEthereumTxAuthenticity env st etm).val then processEthereumTxMessage st etm else st

/-- Modelled from the spec: the topic-signature handler (its unit tests are
    in the sources): SanityCheckSignature, and only on a valid result
    ProcessSignature; a failed or invalid sanity check drops the message. -/
def handleSignatureMessage (env : Env) (st : BridgeState) (tm : SigMsg) : BridgeState :=
  match sanityCheckSignature env st tm with
  | some true => (processSignature env st tm).fst
  | _ => st

/-- The transfer row created for a new transfer message, with the given
    status. -/
def TransferMsg.toRow (tm : TransferMsg) (s : Status) : Transfer :=
  { transactionID := tm.transactionID, receiver := tm.receiver, amount := tm.amount,
    txReimbursement := tm.txReimbursement, gasPrice := tm.gasPrice,
    nativeToken := tm.nativeToken, wrappedToken := tm.wrappedToken,
    status := s, ethTxHash := none }

/-- Modelled from the spec: Transfers.InitiateNewTransfer — an idempotent
    upsert keyed by transfer_id: when the row exists it is returned with its
    status unchanged, otherwise a row with status Initial is inserted. -/
def initiateNewTransfer (st : BridgeState) (tm : TransferMsg) : BridgeState × Transfer :=
  match lookupTransfer st tm.transactionID with
  | some t => (st, t)
  | none =>
    ({ st with transfers := st.transfers ++ [tm.toRow .initial] }, tm.toRow .initial)

/-- Modelled from the spec: Transfers.ProcessTransfer — compute the
    authorization digest, sign it, build the topic signature message and
    submit it; on acceptance the status becomes SignatureSubmitted.  The
    returned list is the batch of topic messages emitted by the call. -/
def processTransfer (env : Env) (st : BridgeState) (tm : TransferMsg) :
    BridgeState × List SigMsg :=
  match env.parseToken tm.nativeToken with
  | none => (st, [])
  | some wrappedToken =>
    match env.encodeAuth tm.transactionID wrappedToken tm.receiver tm.amount tm.txReimbursement with
    | none => (st, [])
    | some authBytes =>
      match env.sign authBytes with
      | none => (st, [])
      | some sig =>
        (updateStatus st tm.transactionID [.initial] .signatureSubmitted,
         [{ transferID := tm.transactionID, receiver := tm.receiver, amount := tm.amount,
            txReimbursement := tm.txReimbursement, gasPrice := tm.gasPrice,
            signature := sig, wrappedToken := wrappedToken, transactionTimestamp := 0 }])

/-- Modelled from the spec: the transfer handler (its unit tests are in the
    sources): InitiateNewTransfer, and further processing only when the
    returned status is Initial — otherwise the transfer was previously
    added and execution is skipped. -/
def handleTransferMessage (env : Env) (st : BridgeState) (tm : TransferMsg) :
    BridgeState × List SigMsg :=
  let p := initiateNewTransfer st tm
  if p.snd.status = Status.initial then processTransfer env p.fst tm else (p.fst, [])

/-- The distinct signers recorded for a transfer (Query count of distinct
    signers for transfer_id, §4.4 step 4). -/
def signersFor (st : BridgeState) (id : String) : List String :=
  ((st.messages.filter (fun m => m.transferID == id)).map (fun m => m.signer)).dedup

/-- Count of distinct signers recorded for a transfer. -/
def distinctSignerCount (st : BridgeState) (id : String) : Nat :=
  (signersFor st id).length

/-- The distinct member signers that signed the given digest for the given
    transfer. -/
def memberSignersForHash (env : Env) (st : BridgeState) (id h : String) : List String :=
  ((st.messages.filter (fun m =>
      m.transferID == id && m.hash == h && env.members.contains m.signer)).map
    (fun m => m.signer)).dedup

/-- The best quorum evidence stored for a transfer: the largest number of
    distinct member signers sharing one authorization digest. -/
def quorumCount (env : Env) (st : BridgeState) (id : String) : Nat :=
  ((st.messages.filter (fun m => m.transferID == id)).map
      (fun m => (memberSignersForHash env st id m.hash).length)).foldr max 0

/-- One atomic event of the per-node transfer state machine.  initiate is
    the first observation of a transfer; handleSig ingests a topic signature
    message; markSignatureSubmitted and markSignatureMined are the topic
    submission transitions; majorityMint is the elected submitter's mint
    task (prepareEthereumMintTask), guarded by the quorum check of §4.4;
    handleEthTx ingests a topic EthTransaction hash message; the two mark
    transitions at the end are the receipt callbacks. -/
inductive Step where
  | initiate (tm : TransferMsg)
  | handleSig (tm : SigMsg)
  | markSignatureSubmitted (id : String)
  | markSignatureMined (id : String)
  | majorityMint (id : String) (hash : String)
  | handleEthTx (etm : EthTxMsg)
  | markEthTxMined (id : String)
  | markEthTxReverted (id : String)
deriving DecidableEq

/-- Whether a step is the ingestion of a topic EthTransaction hash message. -/
def Step.isHandleEthTx : Step → Bool
  | .handleEthTx _ => true
  | _ => false

/-- The state transition of one step. -/
def applyStep (env : Env) (st : BridgeState) : Step → BridgeState
  | .initiate tm => (initiateNewTransfer st tm).fst
  | .handleSig tm => handleSignatureMessage env st tm
  | .markSignatureSubmitted id => updateStatus st id [.initial] .signatureSubmitted
  | .markSignatureMined id => updateStatus st id [.signatureSubmitted] .signatureMined
  | .majorityMint id hash =>
      if env.threshold ≤ distinctSignerCount st id then updateEthTxSubmitted st id hash else st
  | .handleEthTx etm => handleEthTxMessage env st etm
  | .markEthTxMined id => updateStatus st id [.ethTxSubmitted] .ethTxMined
  | .markEthTxReverted id => updateStatus st id [.ethTxSubmitted] .ethTxReverted

/-- The empty initial state. -/
def initState : BridgeState := ⟨[], []⟩

/-- The state reached by a history of steps from the empty state. -/
def runTrace (env : Env) (trace : List Step) : BridgeState :=
  trace.foldl (applyStep env) initState

/-- The authorization digest hex recorded for signatures of a transfer row:
    parse the native token and encode the digest from the row's fields. -/
def canonicalHash (env : Env) (t : Transfer) : Option String :=
  match env.parseToken t.nativeToken with
  | none => none
  | some wt =>
    (env.encodeAuth t.transactionID wt t.receiver t.amount t.txReimbursement).map hexEncode

/-- Quorum soundness as claimed: in every reachable history, a transfer
    whose status reached EthTxSubmitted or later has at least threshold
    distinct member signers over one shared digest in the Message store. -/
def QuorumSoundClaim (env : Env) : Prop :=
  ∀ trace : List Step, ∀ t ∈ (runTrace env trace).transfers,
    t.status.atLeastEthTxSubmitted = true →
    env.threshold ≤ quorumCount env (runTrace env trace) t.transactionID

/-- The invariant carried by the quorum-soundness induction: transfer ids
    are unique, recorded signers are members, every recorded row carries the
    canonical digest of its transfer row, and any transfer at
    EthTxSubmitted or later has threshold many distinct signers. -/
def GoodState (env : Env) (st : BridgeState) : Prop :=
  (st.transfers.map (fun t => t.transactionID)).Nodup ∧
  (∀ m ∈ st.messages, m.signer ∈ env.members) ∧
  (∀ m ∈ st.messages, ∃ t, lookupTransfer st m.transferID = some t ∧
      canonicalHash env t = some m.hash) ∧
  (∀ t ∈ st.transfers, t.status.atLeastEthTxSubmitted = true →
      env.threshold ≤ distinctSignerCount st t.transactionID)

/-- A credit transaction seen by the crypto-transfer watcher: its consensus
    timestamp (nanoseconds) and whether processTransaction succeeds on it
    (amount extraction and sanity check pass, so an event is published). -/
structure WTx where
  ts : Nat
  sane : Bool
deriving DecidableEq

/-- The crypto-transfer watcher's state: the persisted last_fetched cursor,
    the in-memory milestoneTimestamp, the processTransaction goroutines that
    were spawned but have not yet run, and the published events. -/
structure WState where
  cursor : Nat
  milestone : Nat
  pending : List WTx
  queue : List WTx
deriving DecidableEq

/-- One scheduling step of the crypto-transfer watcher: either one iteration
    of the polling loop in Watcher.beginWatching, or running the earliest
    spawned processTransaction goroutine. -/
inductive WStep where
  | poll
  | runTask
deriving DecidableEq

/-- One iteration of the polling loop of Watcher.beginWatching: fetch the
    credit transactions after the in-memory milestone, spawn a goroutine
    for each ( go ctw.processTransaction ), move the milestone to the
    consensus timestamp of the last transaction of the batch, and persist
    it with UpdateLastFetchedTimestamp. -/
def pollOnce (mirror : List WTx) (st : WState) : WState :=
  let batch := mirror.filter (fun tx => st.milestone < tx.ts)
  match batch.getLast? with
  | none => { st with cursor := st.milestone }
  | some last =>
      { cursor := last.ts, milestone := last.ts,
        pending := st.pending ++ batch, queue := st.queue }

/-- Running one spawned processTransaction goroutine: a sane transaction is
    published to the event queue, an insane one is dropped. -/
def runPending (st : WState) : WState :=
  match st.pending with
  | [] => st
  | tx :: rest =>
      { st with
        pending := rest,
        queue := if tx.sane then st.queue ++ [tx] else st.queue }

/-- The watcher transition for one scheduling step. -/
def wApply (mirror : List WTx) (st : WState) : WStep → WState
  | .poll => pollOnce mirror st
  | .runTask => runPending st

/-- The watcher's initial state: cursor and milestone at the start
    timestamp, nothing spawned, nothing published. -/
def wInit (start : Nat) : WState := ⟨start, start, [], []⟩

/-- The watcher state after a schedule of steps. -/
def wRun (mirror : List WTx) (start : Nat) (steps : List WStep) : WState :=
  steps.foldl (wApply mirror) (wInit start)

/-- The checkpoint policy as claimed: whenever the persisted cursor covers a
    sane transaction, that transaction's event has already been enqueued. -/
def CheckpointAfterEnqueueClaim (mirror : List WTx) (start : Nat) : Prop :=
  ∀ steps : List WStep, ∀ tx ∈ mirror, tx.sane = true → start < tx.ts →
    tx.ts ≤ (wRun mirror start steps).cursor → tx ∈ (wRun mirror start steps).queue

/-- Little-endian base-128 varint encoding of a natural number
    (the protobuf wire primitive). -/
def varintEncode (n : Nat) : List Nat :=
  if h : n < 128 then [n]
  else (n % 128 + 128) :: varintEncode (n / 128)
decreasing_by exact Nat.div_lt_self (by omega) (by omega)

/-- Varint decoding: the decoded value and the remaining bytes. -/
def varintDecode : List Nat → Option (Nat × List Nat)
  | [] => none
  | b :: rest =>
    if b < 128 then some (b, rest)
    else
      match varintDecode rest with
      | none => none
      | some (n, rest2) => some (b - 128 + 128 * n, rest2)

/-- A length-delimited protobuf field: tag with wire type 2, the payload
    length, the payload bytes. -/
def lenField (fieldNum : Nat) (payload : List Nat) : List Nat :=
  varintEncode (fieldNum * 8 + 2) ++ varintEncode payload.length ++ payload

/-- A varint protobuf field: tag with wire type 0 and the value. -/
def varField (fieldNum : Nat) (value : Nat) : List Nat :=
  varintEncode (fieldNum * 8) ++ varintEncode value

/-- Modelled from the spec: the TopicSignatureMessage payload — seven utf-8
    string fields with stable field numbers (§6); strings are embedded as
    their byte sequences. -/
structure SigPayload where
  transferID : List Nat
  receiver : List Nat
  amount : List Nat
  txReimbursement : List Nat
  gasPrice : List Nat
  signature : List Nat
  wrappedToken : List Nat
deriving DecidableEq

/-- Modelled from the spec: the TopicEthTransactionMessage payload (§6). -/
structure EthTxPayload where
  transferID : List Nat
  hash : List Nat
  ethTxHash : List Nat
deriving DecidableEq

/-- The one-of payload of a topic message. -/
inductive TopicPayload where
  | sig (p : SigPayload)
  | ethTx (p : EthTxPayload)
deriving DecidableEq

/-- The model.TopicMessage envelope: the type discriminator (1=EthSignature,
    2=EthTransaction), the payload, and the transaction timestamp that is
    filled at receive time and never put on the wire. -/
structure TopicMessage where
  type : Nat
  payload : TopicPayload
  transactionTimestamp : Int
deriving DecidableEq

/-- Models message.NewSignature: a signature topic message ready for
    submission, type EthSignature, timestamp left at its zero value. -/
def newSignature (transferID receiver amount txReimbursement gasPrice signature wrappedToken :
    List Nat) : TopicMessage :=
  { type := 1,
    payload := .sig
      { transferID := transferID, receiver := receiver, amount := amount,
        txReimbursement := txReimbursement, gasPrice := gasPrice,
        signature := signature, wrappedToken := wrappedToken },
    transactionTimestamp := 0 }

/-- Serialization of the signature payload: fields 1..7 in declared order. -/
def encodeSigPayload (p : SigPayload) : List Nat :=
  lenField 1 p.transferID ++ lenField 2 p.receiver ++ lenField 3 p.amount ++
  lenField 4 p.txReimbursement ++ lenField 5 p.gasPrice ++ lenField 6 p.signature ++
  lenField 7 p.wrappedToken

/-- Serialization of the eth-transaction payload: fields 1..3. -/
def encodeEthTxPayload (p : EthTxPayload) : List Nat :=
  lenField 1 p.transferID ++ lenField 2 p.hash ++ lenField 3 p.ethTxHash

/-- Models Message.ToBytes (proto.Marshal): the type discriminator in field
    1 and the one-of payload as a length-delimited submessage (field 2 for
    the signature shape, field 3 for the eth-transaction shape); the
    transaction timestamp is not written to the wire. -/
def toBytes (m : TopicMessage) : List Nat :=
  varField 1 m.type ++
    match m.payload with
    | .sig p => lenField 2 (encodeSigPayload p)
    | .ethTx p => lenField 3 (encodeEthTxPayload p)

/-- Parse one length-delimited field with the expected field number. -/
def parseLenField (fieldNum : Nat) (input : List Nat) : Option (List Nat × List Nat) :=
  match varintDecode input with
  | none => none
  | some (tag, rest) =>
    if tag = fieldNum * 8 + 2 then
      match varintDecode rest with
      | none => none
      | some (len, rest2) =>
        if len ≤ rest2.length then some (rest2.take len, rest2.drop len) else none
    else none

/-- Parse one varint field with the expected field number. -/
def parseVarField (fieldNum : Nat) (input : List Nat) : Option (Nat × List Nat) :=
  match varintDecode input with
  | none => none
  | some (tag, rest) => if tag = fieldNum * 8 then varintDecode rest else none

/-- Parse the signature payload: fields 1..7, with nothing left over. -/
def parseSigPayload (input : List Nat) : Option SigPayload :=
  match parseLenField 1 input with
  | none => none
  | some (f1, r1) =>
    match parseLenField 2 r1 with
    | none => none
    | some (f2, r2) =>
      match parseLenField 3 r2 with
      | none => none
      | some (f3, r3) =>
        match parseLenField 4 r3 with
        | none => none
        | some (f4, r4) =>
          match parseLenField 5 r4 with
          | none => none
          | some (f5, r5) =>
            match parseLenField 6 r5 with
            | none => none
            | some (f6, r6) =>
              match parseLenField 7 r6 with
              | none => none
              | some (f7, r7) =>
                if r7 = [] then
                  some { transferID := f1, receiver := f2, amount := f3,
                         txReimbursement := f4, gasPrice := f5,
                         signature := f6, wrappedToken := f7 }
                else none

/-- Parse the eth-transaction payload: fields 1..3, with nothing left over. -/
def parseEthTxPayload (input : List Nat) : Option EthTxPayload :=
  match parseLenField 1 input with
  | none => none
  | some (f1, r1) =>
    match parseLenField 2 r1 with
    | none => none
    | some (f2, r2) =>
      match parseLenField 3 r2 with
      | none => none
      | some (f3, r3) =>
        if r3 = [] then some { transferID := f1, hash := f2, ethTxHash := f3 } else none

/-- Models message.FromBytes (proto.Unmarshal): read the type field, then
    the one-of payload; the envelope's timestamp is not on the wire and is
    left at its zero value. -/
def fromBytes (input : List Nat) : Option TopicMessage :=
  match parseVarField 1 input with
  | none => none
  | some (ty, rest) =>
    match parseLenField 2 rest with
    | some (body, rest2) =>
      if rest2 = [] then
        (parseSigPayload body).map (fun p => ⟨ty, .sig p, 0⟩)
      else none
    | none =>
      match parseLenField 3 rest with
      | none => none
      | some (body, rest2) =>
        if rest2 = [] then
          (parseEthTxPayload body).map (fun p => ⟨ty, .ethTx p, 0⟩)
        else none

/-- Models message.FromBytesWithTS: decode and then overwrite the
    transaction timestamp with the receive-time argument. -/
def fromBytesWithTS (input : List Nat) (ts : Int) : Option TopicMessage :=
  (fromBytes input).map (fun m => { m with transactionTimestamp := ts })

/-- Recover the signer of every signature of a list over one digest; none
    when any single recovery fails. -/
def recoverAll (env : Env) (msgHash : List Nat) : List (List Nat) → Option (List String)
  | [] => some []
  | s :: rest =>
    match env.recover msgHash s with
    | none => none
    | some a => (recoverAll env msgHash rest).map (fun l => a :: l)

/-- The per-(transfer, signer) uniqueness property as claimed for signature
    ingestion: ProcessSignature never makes the (transfer_id, signer) pairs
    of the Message store collide. -/
def PerSignerDedupClaim : Prop :=
  ∀ (env : Env) (st : BridgeState) (tm : SigMsg),
    (st.messages.map (fun m => (m.transferID, m.signer))).Nodup →
    ((processSignature env st tm).fst.messages.map (fun m => (m.transferID, m.signer))).Nodup

/-- A small concrete environment used to evaluate the embedded operations:
    one member 0xa (threshold 1), signatures s1 and s2 both recover to the
    member 0xa, signature s3 recovers to the non-member 0xq, and the
    E-chain holds one mint transaction h1 for transfer t1 carrying no
    signatures. -/
def envA : Env :=
  { members := ["0xa"], threshold := 1, bridgeAddress := "0xbridge",
    parseToken := fun s => if s = "HBAR" then some "0xw" else none,
    encodeAuth := fun _ _ _ _ _ => some [7],
    decodeSig := fun s =>
      if s = "s1" then some ([1], "s1h")
      else if s = "s2" then some ([2], "s2h")
      else if s = "s3" then some ([3], "s3h")
      else none,
    recover := fun _ sb =>
      if sb = [1] then some "0xa"
      else if sb = [2] then some "0xa"
      else if sb = [3] then some "0xq"
      else none,
    sign := fun _ => some "mysig",
    decodeMint := fun d => if d = [1] then .ok "t1" "0xr" "0xw" "100" "5" [] else .failed,
    ethTxs := [("h1", ⟨"0xBridge", [1]⟩)] }

/-- A concrete transfer row for transfer t1. -/
def transferRow1 : Transfer :=
  ⟨"t1", "0xr", "100", "5", "10", "HBAR", "0xw", .initial, none⟩

/-- The incoming transfer message that creates transferRow1. -/
def transferMsg1 : TransferMsg := ⟨"t1", "0xr", "100", "5", "10", "HBAR", "0xw"⟩

/-- A topic signature message for t1 carrying signature s1. -/
def sigMsg1 : SigMsg := ⟨"t1", "0xr", "100", "5", "10", "s1", "0xw", 3⟩

/-- A topic signature message for t1 carrying signature s2. -/
def sigMsg2 : SigMsg := ⟨"t1", "0xr", "100", "5", "10", "s2", "0xw", 4⟩

/-- A topic signature message for t1 carrying signature s3. -/
def sigMsg3 : SigMsg := ⟨"t1", "0xr", "100", "5", "10", "s3", "0xw", 5⟩

/-- A state holding only the fresh transfer row for t1. -/
def stIni : BridgeState := ⟨[transferRow1], []⟩

/-- The Message row that processing sigMsg1 on stIni records. -/
def rowS1 : MessageRow := ⟨"t1", "s1h", "07", "0xa", 3⟩

/-- The state after recording signature s1 for t1. -/
def stOne : BridgeState := ⟨[transferRow1], [rowS1]⟩

/-- A state where t1 has reached SignatureMined. -/
def stMined : BridgeState :=
  ⟨[{ transferRow1 with status := .signatureMined }], []⟩

/-- A reachable history in which transfer t1 reaches EthTxSubmitted through
    the ingestion of a topic EthTransaction hash message naming the E-chain
    transaction h1, whose call data carries no signatures at all. -/
def traceC1 : List Step :=
  [.initiate transferMsg1, .markSignatureSubmitted "t1", .markSignatureMined "t1",
   .handleEthTx ⟨"t1", "ah", "h1"⟩]

/-- A reachable history in which transfer t1 reaches EthTxSubmitted through
    the quorum-gated elected-submitter path. -/
def traceW1 : List Step :=
  [.initiate transferMsg1, .handleSig sigMsg1, .markSignatureSubmitted "t1",
   .markSignatureMined "t1", .majorityMint "t1" "h9"]

section BridgeTheorems

/-- Helper: find? on an append when the left part already finds a hit. -/
theorem find?_append_some {α : Type} (p : α → Bool) (l1 l2 : List α) (a : α)
    (h : l1.find? p = some a) : (l1 ++ l2).find? p = some a := by
  rw [List.find?_append, h]
  rfl

/-- Helper: find? on an append when the left part has no hit. -/
theorem find?_append_none {α : Type} (p : α → Bool) (l1 l2 : List α)
    (h : l1.find? p = none) : (l1 ++ l2).find? p = l2.find? p := by
  rw [List.find?_append, h]
  rfl

/-- C2 counterexample: ProcessSignature does not enforce per-(transfer_id,
    signer) uniqueness — with one row from signer 0xa already stored for
    t1, a second, different signature (s2) that recovers to the same signer
    is recorded as a second row. -/
theorem perSignerDedup_counterexample : ¬ PerSignerDedupClaim := by
  intro h
  exact absurd (h envA stOne sigMsg2 (by decide)) (by decide)

/-- C2 (amended): the dedup key of ProcessSignature is (transfer_id,
    signature, digest): when a Message row with the incoming message's
    transfer id, decoded signature hex and recomputed digest already
    exists, no row is created and the call returns the nil error. -/
theorem processSignature_duplicate_signature_ignored
    (env : Env) (st : BridgeState) (tm : SigMsg) (ab sb : List Nat) (sh : String)
    (hab : env.encodeAuth tm.transferID tm.wrappedToken tm.receiver tm.amount
        tm.txReimbursement = some ab)
    (hds : env.decodeSig tm.signature = some (sb, sh))
    (hdup : messageExists st tm.transferID sh (hexEncode ab) = true) :
    processSignature env st tm = (st, .ok) := by
  simp [processSignature, hab, hds, hdup]

/-- Witness for the amended C2 theorem at a concrete duplicate. -/
theorem processSignature_duplicate_signature_ignored_witness :
    processSignature envA stOne sigMsg1 = (stOne, .ok) :=
  processSignature_duplicate_signature_ignored envA stOne sigMsg1 [7] [1] "s1h"
    (by decide) (by decide) (by decide)

/-- C3: ProcessSignature recomputes the digest and recovers the signer; a
    signature whose recovered address is not a bridge member is rejected
    with an error and no Message row is persisted (the state is returned
    unchanged). -/
theorem processSignature_rejects_nonmember
    (env : Env) (st : BridgeState) (tm : SigMsg) (ab sb : List Nat) (sh a : String)
    (hab : env.encodeAuth tm.transferID tm.wrappedToken tm.receiver tm.amount
        tm.txReimbursement = some ab)
    (hds : env.decodeSig tm.signature = some (sb, sh))
    (hdup : messageExists st tm.transferID sh (hexEncode ab) = false)
    (hrec : env.recover ab sb = some a)
    (hmem : a ∉ env.members) :
    processSignature env st tm = (st, .err) := by
  simp [processSignature, hab, hds, hdup, verifySignatureOp, hrec, hmem]

/-- Witness for C3: signature s3 recovers to the non-member 0xq and is
    rejected without touching the store. -/
theorem processSignature_rejects_nonmember_witness :
    processSignature envA stIni sigMsg3 = (stIni, .err) :=
  processSignature_rejects_nonmember envA stIni sigMsg3 [7] [3] "s3h" "0xq"
    (by decide) (by decide) (by decide) (by decide) (by decide)

/-- C5: when VerifyEthereumTxAuthenticity rejects a topic EthTransaction
    message, handling the message performs no write: the state is exactly
    the old one, and every transfer that was at SignatureMined is still a
    transfer at SignatureMined with the same id. -/
theorem rejectedEthTxMessage_leaves_state
    (env : Env) (st : BridgeState) (etm : EthTxMsg)
    (hrej : (verifyEthereumTxAuthenticity env st etm).val = false) :
    handleEthTxMessage env st etm = st ∧
    ∀ t ∈ st.transfers, t.status = Status.signatureMined →
      ∃ t2 ∈ (handleEthTxMessage env st etm).transfers,
        t2.transactionID = t.transactionID ∧ t2.status = Status.signatureMined := by
  have hstate : handleEthTxMessage env st etm = st := by
    simp [handleEthTxMessage, hrej]
  refine ⟨hstate, ?_⟩
  intro t ht hs
  exact ⟨t, by rw [hstate]; exact ht, rfl, hs⟩

/-- Witness for C5: a hash message naming an unknown E-chain transaction is
    rejected and the SignatureMined state stays untouched. -/
theorem rejectedEthTxMessage_leaves_state_witness :
    handleEthTxMessage envA stMined ⟨"t1", "x", "nohash"⟩ = stMined :=
  (rejectedEthTxMessage_leaves_state envA stMined ⟨"t1", "x", "nohash"⟩ (by decide)).1

/-- C6: with the transfer row present and the native token parseable,
    SanityCheckSignature answers exactly the comparison of receiver, amount,
    tx-reimbursement and wrapped token with the persisted transfer, and a
    message failing the check is dropped without recording a signature. -/
theorem sanityCheckSignature_spec
    (env : Env) (st : BridgeState) (tm : SigMsg) (t : Transfer) (wt : String)
    (ht : awaitTransfer st tm.transferID = some t)
    (hwt : env.parseToken t.nativeToken = some wt) :
    (sanityCheckSignature env st tm = some true ↔
      (t.receiver = tm.receiver ∧ t.amount = tm.amount ∧
       t.txReimbursement = tm.txReimbursement ∧ tm.wrappedToken = wt)) ∧
    (sanityCheckSignature env st tm ≠ some true →
      handleSignatureMessage env st tm = st) := by
  constructor
  · simp [sanityCheckSignature, ht, hwt, Bool.and_assoc]
  · intro hne
    unfold handleSignatureMessage
    match hs : sanityCheckSignature env st tm with
    | none => rfl
    | some false => rfl
    | some true => exact absurd hs hne

/-- Witness for C6: sigMsg1 matches transferRow1 field for field, so the
    sanity check validates it. -/
theorem sanityCheckSignature_spec_witness :
    sanityCheckSignature envA stIni sigMsg1 = some true :=
  (sanityCheckSignature_spec envA stIni sigMsg1 transferRow1 "0xw"
    (by decide) (by decide)).1.mpr ⟨rfl, rfl, rfl, rfl⟩

/-- C9: InitiateNewTransfer is idempotent in transfer_id — a fresh id is
    inserted with status Initial and returned; invoking it again returns
    the stored row and leaves the state unchanged; and a handler observing
    a returned status different from Initial skips further processing, so
    no topic signature is emitted. -/
theorem initiateNewTransfer_idempotent
    (env : Env) (st : BridgeState) (tm : TransferMsg)
    (hfresh : lookupTransfer st tm.transactionID = none) :
    (initiateNewTransfer st tm).snd.status = Status.initial ∧
    initiateNewTransfer (initiateNewTransfer st tm).fst tm =
      ((initiateNewTransfer st tm).fst, (initiateNewTransfer st tm).snd) ∧
    (∀ st2 tm2, (initiateNewTransfer st2 tm2).snd.status ≠ Status.initial →
      handleTransferMessage env st2 tm2 = ((initiateNewTransfer st2 tm2).fst, [])) := by
  have hlook : lookupTransfer
      { st with transfers := st.transfers ++ [tm.toRow .initial] } tm.transactionID =
      some (tm.toRow .initial) := by
    unfold lookupTransfer at hfresh ⊢
    rw [find?_append_none _ _ _ hfresh]
    simp [List.find?, TransferMsg.toRow]
  refine ⟨?_, ?_, ?_⟩
  · simp [initiateNewTransfer, hfresh, TransferMsg.toRow]
  · simp only [initiateNewTransfer, hfresh]
    rw [hlook]
  · intro st2 tm2 hne
    unfold handleTransferMessage
    simp only []
    rw [if_neg hne]

/-- Helper: the signatures loop of VerifyEthereumTxAuthenticity accepts
    exactly when every signature recovers, the recovered addresses are
    pairwise distinct and disjoint from the already-checked ones, and every
    one is a member. -/
theorem checkSigs_val_iff (env : Env) (msgHash : List Nat) :
    ∀ (sigs : List (List Nat)) (checked : List String),
    (checkSigs env msgHash checked sigs).val = true ↔
    ∃ addrs, recoverAll env msgHash sigs = some addrs ∧ addrs.Nodup ∧
      ∀ a ∈ addrs, a ∉ checked ∧ a ∈ env.members := by
  intro sigs
  induction sigs with
  | nil =>
    intro checked
    simp [checkSigs, recoverAll]
  | cons s rest ih =>
    intro checked
    simp only [checkSigs]
    cases hr : env.recover msgHash s with
    | none => simp [recoverAll, hr]
    | some a =>
      simp only [recoverAll, hr]
      by_cases hc : a ∈ checked
      · have hcc : checked.contains a = true := by simpa using hc
        rw [if_pos hcc]
        simp only [show (GoBoolErr.mk false false).val = false from rfl]
        constructor
        · intro hfalse
          cases hfalse
        · rintro ⟨addrs, hmap, _, hall⟩
          rcases Option.map_eq_some'.mp hmap with ⟨l, _, rfl⟩
          exact absurd hc (hall a (List.mem_cons_self a l)).1
      · rw [if_neg (by simpa using hc)]
        by_cases hm : a ∈ env.members
        · have hmm : env.members.contains a = true := by simpa using hm
          rw [if_pos hmm, ih (a :: checked)]
          constructor
          · rintro ⟨l, hl, hnd, hall⟩
            refine ⟨a :: l, by rw [hl]; rfl, ?_, ?_⟩
            · refine List.nodup_cons.mpr ⟨?_, hnd⟩
              intro hmem
              exact (hall a hmem).1 (List.mem_cons_self a checked)
            · intro b hb
              rcases List.mem_cons.mp hb with hb | hb
              · subst hb
                exact ⟨hc, hm⟩
              · rcases hall b hb with ⟨hbn, hbm⟩
                exact ⟨fun hbc => hbn (List.mem_cons_of_mem _ hbc), hbm⟩
          · rintro ⟨addrs, hmap, hnd, hall⟩
            rcases Option.map_eq_some'.mp hmap with ⟨l, hl, rfl⟩
            refine ⟨l, hl, (List.nodup_cons.mp hnd).2, ?_⟩
            intro b hb
            rcases hall b (List.mem_cons_of_mem _ hb) with ⟨hbn, hbm⟩
            refine ⟨?_, hbm⟩
            intro hbc
            rcases List.mem_cons.mp hbc with hba | hbc2
            · exact (List.nodup_cons.mp hnd).1 (hba ▸ hb)
            · exact hbn hbc2
        · rw [if_neg (by simpa using hm)]
          simp only [show (GoBoolErr.mk false false).val = false from rfl]
          constructor
          · intro hfalse
            cases hfalse
          · rintro ⟨addrs, hmap, _, hall⟩
            rcases Option.map_eq_some'.mp hmap with ⟨l, _, rfl⟩
            exact absurd (hall a (List.mem_cons_self a l)).2 hm

/-- C4: VerifyEthereumTxAuthenticity answers true exactly when the fetched
    E-chain transaction goes to the bridge contract address, its call data
    decodes to mint arguments that name the message's transfer and equal
    the persisted transfer row's fields, and every signature of the call
    data recovers to a member address with no address appearing twice. -/
theorem verifyEthereumTxAuthenticity_true_iff (env : Env) (st : BridgeState) (etm : EthTxMsg) :
    (verifyEthereumTxAuthenticity env st etm).val = true ↔
    ∃ tx, lookupEthTx env etm.ethTxHash = some tx ∧
      strToLower tx.toAddr = strToLower env.bridgeAddress ∧
      ∃ txId ethAddress wrappedToken amount txReimbursement signatures,
        env.decodeMint tx.callData =
          MintDecode.ok txId ethAddress wrappedToken amount txReimbursement signatures ∧
        txId = etm.transferID ∧
        (∃ dbTx, lookupTransfer st etm.transferID = some dbTx ∧
          dbTx.amount = amount ∧ dbTx.receiver = ethAddress ∧
          dbTx.txReimbursement = txReimbursement ∧ wrappedToken = dbTx.wrappedToken) ∧
        ∃ msgHash,
          env.encodeAuth txId wrappedToken ethAddress amount txReimbursement = some msgHash ∧
          ∃ addrs, recoverAll env msgHash signatures = some addrs ∧ addrs.Nodup ∧
            ∀ a ∈ addrs, a ∈ env.members := by
  unfold verifyEthereumTxAuthenticity
  cases htx : lookupEthTx env etm.ethTxHash with
  | none => simp
  | some tx =>
    simp only []
    by_cases hto : strToLower tx.toAddr = strToLower env.bridgeAddress
    · rw [if_pos hto]
      cases hdm : env.decodeMint tx.callData with
      | invalidParams => simp [hdm]
      | failed => simp [hdm]
      | ok txId ethAddress wrappedToken amount txReimbursement signatures =>
        simp only []
        by_cases hid : txId = etm.transferID
        · rw [if_pos hid]
          cases hdb : lookupTransfer st etm.transferID with
          | none => simp [hdm, hid]
          | some dbTx =>
            simp only []
            by_cases hfl : dbTx.amount = amount ∧ dbTx.receiver = ethAddress ∧
                dbTx.txReimbursement = txReimbursement ∧ wrappedToken = dbTx.wrappedToken
            · rw [if_pos hfl]
              cases hea : env.encodeAuth txId wrappedToken ethAddress amount txReimbursement with
              | none =>
                simp only [show (GoBoolErr.mk false true).val = false from rfl]
                constructor
                · intro hfalse
                  cases hfalse
                · rintro ⟨tx2, htx2, _, txId2, ethAddress2, wrappedToken2, amount2,
                    txReimbursement2, signatures2, hdm2, hid2, _, msgHash, hea2, _⟩
                  cases htx2
                  rw [hdm] at hdm2
                  cases hdm2
                  rw [hea] at hea2
                  cases hea2
              | some msgHash =>
                rw [checkSigs_val_iff]
                constructor
                · rintro ⟨addrs, hra, hnd, hall⟩
                  exact ⟨tx, rfl, hto, txId, ethAddress, wrappedToken, amount,
                    txReimbursement, signatures, hdm, hid, ⟨dbTx, rfl, hfl⟩,
                    msgHash, hea, addrs, hra, hnd, fun a ha => (hall a ha).2⟩
                · rintro ⟨tx2, htx2, _, txId2, ethAddress2, wrappedToken2, amount2,
                    txReimbursement2, signatures2, hdm2, hid2, _, msgHash2, hea2,
                    addrs, hra, hnd, hall⟩
                  cases htx2
                  rw [hdm] at hdm2
                  cases hdm2
                  rw [hea] at hea2
                  cases hea2
                  exact ⟨addrs, hra, hnd, fun a ha => ⟨List.not_mem_nil a, hall a ha⟩⟩
            · rw [if_neg hfl]
              simp only [show (GoBoolErr.mk false false).val = false from rfl]
              constructor
              · intro hfalse
                cases hfalse
              · rintro ⟨tx2, htx2, _, txId2, ethAddress2, wrappedToken2, amount2,
                  txReimbursement2, signatures2, hdm2, hid2, ⟨dbTx2, hdb2, hfl2⟩, _⟩
                cases htx2
                rw [hdm] at hdm2
                cases hdm2
                cases hdb2
                exact absurd hfl2 hfl
        · rw [if_neg hid]
          simp only [show (GoBoolErr.mk false false).val = false from rfl]
          constructor
          · intro hfalse
            cases hfalse
          · rintro ⟨tx2, htx2, _, txId2, ethAddress2, wrappedToken2, amount2,
              txReimbursement2, signatures2, hdm2, hid2, _⟩
            cases htx2
            rw [hdm] at hdm2
            cases hdm2
            exact absurd hid2 hid
    · rw [if_neg hto]
      simp only [show (GoBoolErr.mk false false).val = false from rfl]
      constructor
      · intro hfalse
        cases hfalse
      · rintro ⟨tx2, htx2, hto2, _⟩
        cases htx2
        exact absurd hto2 hto

/-- Witness for C9: a fresh transfer is inserted with status Initial. -/
theorem initiateNewTransfer_idempotent_witness :
    (initiateNewTransfer initState transferMsg1).snd.status = Status.initial :=
  (initiateNewTransfer_idempotent envA initState transferMsg1 (by decide)).1

end BridgeTheorems


section CodecTheorems

/-- Helper: varint decoding inverts varint encoding, leaving the rest. -/
theorem varint_roundtrip (n : Nat) (rest : List Nat) :
    varintDecode (varintEncode n ++ rest) = some (n, rest) := by
  induction n using Nat.strong_induction_on generalizing rest with
  | _ n ih =>
    by_cases h : n < 128
    · unfold varintEncode
      rw [dif_pos h]
      simp [varintDecode, h]
    · unfold varintEncode
      rw [dif_neg h]
      simp only [List.cons_append, varintDecode]
      rw [if_neg (by omega)]
      simp only [List.append_eq]
      rw [ih (n / 128) (Nat.div_lt_self (by omega) (by omega)) rest]
      simp only [Option.some.injEq, Prod.mk.injEq]
      exact ⟨by omega, by trivial⟩

/-- Helper: parsing a length-delimited field inverts building it. -/
theorem parseLenField_roundtrip (fieldNum : Nat) (payload rest : List Nat) :
    parseLenField fieldNum (lenField fieldNum payload ++ rest) = some (payload, rest) := by
  unfold parseLenField lenField
  rw [List.append_assoc, List.append_assoc, varint_roundtrip]
  simp only [if_pos rfl]
  rw [varint_roundtrip]
  simp [List.take_left, List.drop_left]

/-- Helper: parsing a length-delimited field with nothing after it. -/
theorem parseLenField_exact (fieldNum : Nat) (payload : List Nat) :
    parseLenField fieldNum (lenField fieldNum payload) = some (payload, []) := by
  have h := parseLenField_roundtrip fieldNum payload []
  rwa [List.append_nil] at h

/-- Helper: parsing a varint field inverts building it. -/
theorem parseVarField_roundtrip (fieldNum value : Nat) (rest : List Nat) :
    parseVarField fieldNum (varField fieldNum value ++ rest) = some (value, rest) := by
  unfold parseVarField varField
  rw [List.append_assoc, varint_roundtrip]
  simp only [if_pos rfl]
  rw [varint_roundtrip]
  simp

/-- Helper: the signature payload parser inverts the encoder. -/
theorem parseSigPayload_roundtrip (p : SigPayload) :
    parseSigPayload (encodeSigPayload p) = some p := by
  have he : encodeSigPayload p =
      lenField 1 p.transferID ++ (lenField 2 p.receiver ++ (lenField 3 p.amount ++
        (lenField 4 p.txReimbursement ++ (lenField 5 p.gasPrice ++
          (lenField 6 p.signature ++ lenField 7 p.wrappedToken))))) := by
    simp [encodeSigPayload, List.append_assoc]
  rw [he]
  unfold parseSigPayload
  rw [parseLenField_roundtrip]
  simp only []
  rw [parseLenField_roundtrip]
  simp only []
  rw [parseLenField_roundtrip]
  simp only []
  rw [parseLenField_roundtrip]
  simp only []
  rw [parseLenField_roundtrip]
  simp only []
  rw [parseLenField_roundtrip]
  simp only []
  rw [parseLenField_exact]
  rfl

/-- Helper: decoding an encoded signature envelope yields the envelope with
    the timestamp at its zero value. -/
theorem fromBytes_sig_encoding (ty : Nat) (p : SigPayload) :
    fromBytes (varField 1 ty ++ lenField 2 (encodeSigPayload p)) = some ⟨ty, .sig p, 0⟩ := by
  unfold fromBytes
  rw [parseVarField_roundtrip]
  simp only []
  rw [parseLenField_exact]
  simp only []
  rw [if_pos trivial, parseSigPayload_roundtrip]
  rfl

/-- C10: decoding the bytes of NewSignature(...).ToBytes() with
    FromBytesWithTS succeeds and yields an EthSignature message whose seven
    payload fields equal the inputs and whose transaction timestamp is the
    receive-time argument, not anything read from the wire. -/
theorem topicSignature_roundtrip
    (tid r a txr gp sg wt : List Nat) (ts : Int) :
    fromBytesWithTS (toBytes (newSignature tid r a txr gp sg wt)) ts =
      some { type := 1,
             payload := .sig
               { transferID := tid, receiver := r, amount := a,
                 txReimbursement := txr, gasPrice := gp,
                 signature := sg, wrappedToken := wt },
             transactionTimestamp := ts } := by
  have hb : toBytes (newSignature tid r a txr gp sg wt) =
      varField 1 1 ++ lenField 2 (encodeSigPayload
        { transferID := tid, receiver := r, amount := a, txReimbursement := txr,
          gasPrice := gp, signature := sg, wrappedToken := wt }) := rfl
  unfold fromBytesWithTS
  rw [hb, fromBytes_sig_encoding]
  rfl

end CodecTheorems

section WatcherTheorems

/-- C7 counterexample: the crypto-transfer watcher advances the persisted
    last_fetched cursor before the spawned processTransaction goroutines
    have published their events — after one polling iteration over a mirror
    with one sane transaction at timestamp 5, the cursor is 5 but the event
    queue is still empty. -/
theorem checkpointAfterEnqueue_counterexample :
    ¬ CheckpointAfterEnqueueClaim [⟨5, true⟩] 0 := by
  intro h
  exact absurd (h [.poll] ⟨5, true⟩ (by decide) (by decide) (by decide) (by decide))
    (by decide)

/-- Helper: the last element of a list is a member. -/
theorem mem_of_getLast?_eq_some {α : Type} :
    ∀ {l : List α} {a : α}, l.getLast? = some a → a ∈ l := by
  intro l
  induction l with
  | nil =>
    intro a h
    cases h
  | cons x xs ih =>
    intro a h
    cases xs with
    | nil =>
      simp only [List.getLast?_singleton, Option.some.injEq] at h
      subst h
      exact List.mem_singleton_self x
    | cons y ys =>
      rw [List.getLast?_cons_cons] at h
      exact List.mem_cons_of_mem _ (ih h)

/-- Helper: one watcher step keeps the milestone equal to the cursor, never
    lowers the cursor, and keeps every sane transaction covered by the
    cursor either spawned or enqueued. -/
theorem wApply_preserves (mirror : List WTx) (start : Nat) (st : WState) (s : WStep)
    (h1 : st.milestone = st.cursor)
    (h3 : ∀ tx ∈ mirror, tx.sane = true → start < tx.ts → tx.ts ≤ st.cursor →
      tx ∈ st.pending ∨ tx ∈ st.queue) :
    (wApply mirror st s).milestone = (wApply mirror st s).cursor ∧
    st.cursor ≤ (wApply mirror st s).cursor ∧
    ∀ tx ∈ mirror, tx.sane = true → start < tx.ts → tx.ts ≤ (wApply mirror st s).cursor →
      tx ∈ (wApply mirror st s).pending ∨ tx ∈ (wApply mirror st s).queue := by
  cases s with
  | runTask =>
    cases hp : st.pending with
    | nil =>
      simp only [wApply, runPending, hp]
      exact ⟨h1, Nat.le_refl _, fun tx htx hs hgt hle => hp ▸ h3 tx htx hs hgt hle⟩
    | cons tx0 rest =>
      simp only [wApply, runPending, hp]
      refine ⟨h1, Nat.le_refl _, ?_⟩
      intro tx htx hs hgt hle
      rcases h3 tx htx hs hgt hle with hmem | hmem
      · rw [hp] at hmem
        rcases List.mem_cons.mp hmem with rfl | hmem2
        · right
          rw [if_pos hs]
          exact List.mem_append_right _ (List.mem_singleton_self tx)
        · exact Or.inl hmem2
      · right
        by_cases hsane : tx0.sane = true
        · rw [if_pos hsane]
          exact List.mem_append_left _ hmem
        · rw [if_neg hsane]
          exact hmem
  | poll =>
    cases hlast : (mirror.filter (fun tx => st.milestone < tx.ts)).getLast? with
    | none =>
      simp only [wApply, pollOnce, hlast]
      refine ⟨by trivial, Nat.le_of_eq h1.symm, ?_⟩
      intro tx htx hs hgt hle
      exact h3 tx htx hs hgt (h1 ▸ hle)
    | some last =>
      have hlastmem : last ∈ mirror.filter (fun tx => st.milestone < tx.ts) :=
        mem_of_getLast?_eq_some hlast
      have hlastgt : st.milestone < last.ts := by
        simpa using List.of_mem_filter hlastmem
      simp only [wApply, pollOnce, hlast]
      refine ⟨by trivial, by rw [← h1]; exact Nat.le_of_lt hlastgt, ?_⟩
      intro tx htx hs hgt hle
      by_cases hcov : tx.ts ≤ st.cursor
      · rcases h3 tx htx hs hgt hcov with hmem | hmem
        · exact Or.inl (List.mem_append_left _ hmem)
        · exact Or.inr hmem
      · left
        apply List.mem_append_right
        apply List.mem_filter.mpr
        refine ⟨htx, ?_⟩
        simp only [decide_eq_true_eq]
        omega

/-- Helper: the watcher invariant propagated over a whole schedule. -/
theorem wFold_invariant (mirror : List WTx) (start : Nat) :
    ∀ (steps : List WStep) (st : WState),
    st.milestone = st.cursor → start ≤ st.cursor →
    (∀ tx ∈ mirror, tx.sane = true → start < tx.ts → tx.ts ≤ st.cursor →
      tx ∈ st.pending ∨ tx ∈ st.queue) →
    (steps.foldl (wApply mirror) st).milestone = (steps.foldl (wApply mirror) st).cursor ∧
    start ≤ (steps.foldl (wApply mirror) st).cursor ∧
    ∀ tx ∈ mirror, tx.sane = true → start < tx.ts →
      tx.ts ≤ (steps.foldl (wApply mirror) st).cursor →
      tx ∈ (steps.foldl (wApply mirror) st).pending ∨
      tx ∈ (steps.foldl (wApply mirror) st).queue := by
  intro steps
  induction steps with
  | nil => exact fun st h1 h2 h3 => ⟨h1, h2, h3⟩
  | cons s rest ih =>
    intro st h1 h2 h3
    rcases wApply_preserves mirror start st s h1 h3 with ⟨g1, g2, g3⟩
    exact ih (wApply mirror st s) g1 (Nat.le_trans h2 g2) g3

/-- C7 (amended): across every schedule, a sane transaction covered by the
    persisted last_fetched cursor has at least been spawned for processing
    (it is pending or already enqueued) — the checkpoint is advanced after
    the batch goroutines are spawned, not after their emissions — and the
    cursor never decreases when any further step runs. -/
theorem checkpoint_spawned_and_monotone (mirror : List WTx) (start : Nat) (steps : List WStep) :
    (∀ tx ∈ mirror, tx.sane = true → start < tx.ts →
        tx.ts ≤ (wRun mirror start steps).cursor →
        tx ∈ (wRun mirror start steps).pending ∨ tx ∈ (wRun mirror start steps).queue) ∧
    ∀ s : WStep, (wRun mirror start steps).cursor ≤ (wRun mirror start (steps ++ [s])).cursor := by
  have hinv := wFold_invariant mirror start steps (wInit start) rfl (Nat.le_refl _)
    (fun tx _ _ hgt hle => absurd (Nat.lt_of_lt_of_le hgt hle) (Nat.lt_irrefl _))
  refine ⟨hinv.2.2, ?_⟩
  intro s
  have happ : wRun mirror start (steps ++ [s]) = wApply mirror (wRun mirror start steps) s := by
    unfold wRun
    rw [List.foldl_append]
    rfl
  rw [happ]
  exact (wApply_preserves mirror start (wRun mirror start steps) s hinv.1 hinv.2.2).2.1

/-- Witness for the amended C7 theorem on a one-transaction mirror after a
    poll and a task run: the covered sane transaction is spawned or
    enqueued. -/
theorem checkpoint_spawned_and_monotone_witness :
    (⟨5, true⟩ : WTx) ∈ (wRun [⟨5, true⟩] 0 [.poll, .runTask]).pending ∨
    (⟨5, true⟩ : WTx) ∈ (wRun [⟨5, true⟩] 0 [.poll, .runTask]).queue :=
  (checkpoint_spawned_and_monotone [⟨5, true⟩] 0 [.poll, .runTask]).1
    ⟨5, true⟩ (by decide) (by decide) (by decide) (by decide)

end WatcherTheorems

section QuorumTheorems

/-- Helper: a successfully verified signature recovers to a member. -/
theorem verifySignatureOp_mem (env : Env) (ab sb : List Nat) (addr : String)
    (h : verifySignatureOp env ab sb = some addr) : addr ∈ env.members := by
  unfold verifySignatureOp at h
  cases hr : env.recover ab sb with
  | none =>
    rw [hr] at h
    cases h
  | some a =>
    rw [hr] at h
    simp only [] at h
    by_cases hm : env.members.contains a = true
    · rw [if_pos hm] at h
      injection h with h2
      subst h2
      simpa using hm
    · rw [if_neg hm] at h
      cases h

/-- Helper: find? commutes with a map that preserves the predicate. -/
theorem find?_map_pred_preserved {α : Type} (f : α → α) (p : α → Bool) (l : List α)
    (hf : ∀ a, p (f a) = p a) : (l.map f).find? p = (l.find? p).map f := by
  induction l with
  | nil => rfl
  | cons x xs ih =>
    simp only [List.map_cons, List.find?, hf x]
    cases hx : p x
    · exact ih
    · rfl

/-- Helper: deduplicated length can only grow under an append. -/
theorem dedup_length_mono {α : Type} [DecidableEq α] (l1 l2 : List α) :
    l1.dedup.length ≤ (l1 ++ l2).dedup.length := by
  rw [← List.card_toFinset, ← List.card_toFinset]
  apply Finset.card_le_card
  rw [List.toFinset_append]
  exact Finset.subset_union_left

/-- Helper: recording one more Message row never lowers a distinct-signer
    count. -/
theorem distinctSignerCount_append (trs : List Transfer) (msgs : List MessageRow)
    (m : MessageRow) (id : String) :
    distinctSignerCount ⟨trs, msgs⟩ id ≤ distinctSignerCount ⟨trs, msgs ++ [m]⟩ id := by
  unfold distinctSignerCount signersFor
  simp only [List.filter_append, List.map_append]
  exact dedup_length_mono _ _

/-- Helper: a member of a list of naturals is at most its foldr max. -/
theorem le_foldr_max (l : List Nat) (a : Nat) (h : a ∈ l) : a ≤ l.foldr max 0 := by
  induction l with
  | nil => cases h
  | cons x xs ih =>
    rcases List.mem_cons.mp h with rfl | h2
    · exact Nat.le_max_left _ _
    · exact Nat.le_trans (ih h2) (Nat.le_max_right _ _)

/-- Helper: GoodState survives any transfer-table map that preserves ids
    and canonical hashes, provided any row lifted into a reached state
    either was already there or has quorum. -/
theorem goodState_map (env : Env) (st : BridgeState) (f : Transfer → Transfer)
    (hid : ∀ t, (f t).transactionID = t.transactionID)
    (hch : ∀ t, canonicalHash env (f t) = canonicalHash env t)
    (hst : ∀ t ∈ st.transfers, (f t).status.atLeastEthTxSubmitted = true →
        t.status.atLeastEthTxSubmitted = true ∨
        env.threshold ≤ distinctSignerCount st t.transactionID)
    (h : GoodState env st) :
    GoodState env ⟨st.transfers.map f, st.messages⟩ := by
  obtain ⟨h1, h2, h3, h4⟩ := h
  refine ⟨?_, h2, ?_, ?_⟩
  · have heq : (st.transfers.map f).map (fun t => t.transactionID) =
        st.transfers.map (fun t => t.transactionID) := by
      rw [List.map_map]
      apply List.map_congr_left
      intro a _
      exact hid a
    rw [heq]
    exact h1
  · intro m hm
    obtain ⟨t, hlk, hc⟩ := h3 m hm
    refine ⟨f t, ?_, by rw [hch]; exact hc⟩
    unfold lookupTransfer at hlk ⊢
    simp only []
    rw [find?_map_pred_preserved f _ _ (fun a => by rw [hid])]
    rw [hlk]
    rfl
  · intro t2 ht2 hat
    rcases List.mem_map.mp ht2 with ⟨t, ht, rfl⟩
    rcases hst t ht hat with hold | hbound
    · have := h4 t ht hold
      rw [hid]
      exact this
    · rw [hid]
      exact hbound

/-- Helper: GoodState survives a conditional status update whose target
    state is justified on every row it touches. -/
theorem goodState_updateStatus (env : Env) (st : BridgeState) (id : String)
    (preds : List Status) (s : Status)
    (hs : ∀ t ∈ st.transfers, t.transactionID = id → preds.contains t.status = true →
        s.atLeastEthTxSubmitted = true →
        t.status.atLeastEthTxSubmitted = true ∨ env.threshold ≤ distinctSignerCount st id)
    (h : GoodState env st) : GoodState env (updateStatus st id preds s) := by
  apply goodState_map env st _ ?_ ?_ ?_ h
  · intro t
    by_cases hc : (t.transactionID == id && preds.contains t.status) = true
    · rw [if_pos hc]
    · rw [if_neg hc]
  · intro t
    by_cases hc : (t.transactionID == id && preds.contains t.status) = true
    · rw [if_pos hc]
      rfl
    · rw [if_neg hc]
  · intro t ht hat
    by_cases hc : (t.transactionID == id && preds.contains t.status) = true
    · rw [if_pos hc] at hat
      rw [Bool.and_eq_true] at hc
      have hcid : t.transactionID = id := beq_iff_eq.mp hc.1
      rcases hs t ht hcid hc.2 hat with hold | hbound
      · exact Or.inl hold
      · rw [hcid]
        exact Or.inr hbound
    · rw [if_neg hc] at hat
      exact Or.inl hat

/-- Helper: GoodState survives UpdateEthTxSubmitted when the target
    transfer has reached quorum. -/
theorem goodState_updateEthTxSubmitted (env : Env) (st : BridgeState) (id hash : String)
    (hguard : env.threshold ≤ distinctSignerCount st id)
    (h : GoodState env st) : GoodState env (updateEthTxSubmitted st id hash) := by
  apply goodState_map env st _ ?_ ?_ ?_ h
  · intro t
    by_cases hc : (t.transactionID == id && t.status == Status.signatureMined) = true
    · rw [if_pos hc]
    · rw [if_neg hc]
  · intro t
    by_cases hc : (t.transactionID == id && t.status == Status.signatureMined) = true
    · rw [if_pos hc]
      rfl
    · rw [if_neg hc]
  · intro t ht hat
    by_cases hc : (t.transactionID == id && t.status == Status.signatureMined) = true
    · rw [Bool.and_eq_true] at hc
      have hcid : t.transactionID = id := beq_iff_eq.mp hc.1
      rw [hcid]
      exact Or.inr hguard
    · rw [if_neg hc] at hat
      exact Or.inl hat

/-- Helper: GoodState survives InitiateNewTransfer. -/
theorem goodState_initiate (env : Env) (st : BridgeState) (tm : TransferMsg)
    (h : GoodState env st) : GoodState env (initiateNewTransfer st tm).fst := by
  unfold initiateNewTransfer
  cases hl : lookupTransfer st tm.transactionID with
  | some t => exact h
  | none =>
    simp only []
    obtain ⟨h1, h2, h3, h4⟩ := h
    have hnotin : ∀ t ∈ st.transfers, ¬(t.transactionID == tm.transactionID) = true := by
      unfold lookupTransfer at hl
      exact List.find?_eq_none.mp hl
    refine ⟨?_, h2, ?_, ?_⟩
    · rw [List.map_append]
      rw [List.nodup_append]
      refine ⟨h1, List.nodup_singleton _, ?_⟩
      intro a ha hb
      rcases List.mem_map.mp ha with ⟨t, ht, rfl⟩
      rcases List.mem_singleton.mp hb with hab
      exact hnotin t ht (beq_iff_eq.mpr hab)
    · intro m hm
      obtain ⟨t, hlk, hc⟩ := h3 m hm
      refine ⟨t, ?_, hc⟩
      unfold lookupTransfer at hlk ⊢
      simp only []
      exact find?_append_some _ _ _ _ hlk
    · intro t2 ht2 hat
      rcases List.mem_append.mp ht2 with hin | hin
      · exact h4 t2 hin hat
      · rcases List.mem_singleton.mp hin with rfl
        exact Bool.noConfusion hat

/-- Helper: GoodState survives the ingestion of a topic signature message
    through the handler (sanity check and ProcessSignature). -/
theorem goodState_handleSig (env : Env) (st : BridgeState) (tm : SigMsg)
    (h : GoodState env st) : GoodState env (handleSignatureMessage env st tm) := by
  unfold handleSignatureMessage
  cases hs : sanityCheckSignature env st tm with
  | none => exact h
  | some b =>
    cases b with
    | false => exact h
    | true =>
      simp only []
      unfold sanityCheckSignature at hs
      cases hT : awaitTransfer st tm.transferID with
      | none =>
        rw [hT] at hs
        cases hs
      | some t =>
        rw [hT] at hs
        simp only [] at hs
        cases hW : env.parseToken t.nativeToken with
        | none =>
          rw [hW] at hs
          cases hs
        | some wt =>
          rw [hW] at hs
          simp only [Option.some.injEq] at hs
          rw [Bool.and_eq_true, Bool.and_eq_true, Bool.and_eq_true] at hs
          obtain ⟨⟨⟨hrB, haB⟩, hxB⟩, hwB⟩ := hs
          have hr : t.receiver = tm.receiver := beq_iff_eq.mp hrB
          have ha : t.amount = tm.amount := beq_iff_eq.mp haB
          have hx : t.txReimbursement = tm.txReimbursement := beq_iff_eq.mp hxB
          have hw : tm.wrappedToken = wt := beq_iff_eq.mp hwB
          have hidT : t.transactionID = tm.transferID := by
            unfold awaitTransfer lookupTransfer at hT
            have := List.find?_some hT
            exact beq_iff_eq.mp this
          unfold processSignature
          cases hab : env.encodeAuth tm.transferID tm.wrappedToken tm.receiver tm.amount
              tm.txReimbursement with
          | none => exact h
          | some ab =>
            simp only []
            cases hds : env.decodeSig tm.signature with
            | none => exact h
            | some pr =>
              obtain ⟨sb, sh⟩ := pr
              simp only []
              by_cases hdup : messageExists st tm.transferID sh (hexEncode ab) = true
              · rw [if_pos hdup]
                exact h
              · rw [if_neg hdup]
                cases hv : verifySignatureOp env ab sb with
                | none => exact h
                | some addr =>
                  simp only []
                  obtain ⟨h1, h2, h3, h4⟩ := h
                  refine ⟨h1, ?_, ?_, ?_⟩
                  · intro m hm
                    rcases List.mem_append.mp hm with hin | hin
                    · exact h2 m hin
                    · rcases List.mem_singleton.mp hin with rfl
                      exact verifySignatureOp_mem env ab sb addr hv
                  · intro m hm
                    rcases List.mem_append.mp hm with hin | hin
                    · exact h3 m hin
                    · rcases List.mem_singleton.mp hin with rfl
                      refine ⟨t, hT, ?_⟩
                      unfold canonicalHash
                      rw [hW]
                      simp only []
                      rw [hidT, hr, ha, hx, ← hw, hab]
                      rfl
                  · intro t2 ht2 hat
                    have hbase := h4 t2 ht2 hat
                    exact Nat.le_trans hbase (distinctSignerCount_append st.transfers
                      st.messages _ t2.transactionID)

/-- Helper: GoodState survives any step other than the ingestion of a topic
    EthTransaction hash message. -/
theorem goodState_applyStep (env : Env) (st : BridgeState) (s : Step)
    (hns : s.isHandleEthTx = false) (h : GoodState env st) :
    GoodState env (applyStep env st s) := by
  cases s with
  | initiate tm => exact goodState_initiate env st tm h
  | handleSig tm => exact goodState_handleSig env st tm h
  | markSignatureSubmitted id =>
    exact goodState_updateStatus env st id _ _
      (fun t ht h1 h2 h3 => absurd h3 (by decide)) h
  | markSignatureMined id =>
    exact goodState_updateStatus env st id _ _
      (fun t ht h1 h2 h3 => absurd h3 (by decide)) h
  | majorityMint id hash =>
    simp only [applyStep]
    by_cases hg : env.threshold ≤ distinctSignerCount st id
    · rw [if_pos hg]
      exact goodState_updateEthTxSubmitted env st id hash hg h
    · rw [if_neg hg]
      exact h
  | handleEthTx etm => cases hns
  | markEthTxMined id =>
    apply goodState_updateStatus env st id _ _ ?_ h
    intro t ht h1 h2 h3
    left
    have : t.status = Status.ethTxSubmitted := by
      simpa using h2
    rw [this]
    rfl
  | markEthTxReverted id =>
    apply goodState_updateStatus env st id _ _ ?_ h
    intro t ht h1 h2 h3
    left
    have : t.status = Status.ethTxSubmitted := by
      simpa using h2
    rw [this]
    rfl

/-- Helper: GoodState propagated through a fold of steps. -/
theorem goodState_fold (env : Env) :
    ∀ (trace : List Step) (st : BridgeState), GoodState env st →
    (∀ s ∈ trace, s.isHandleEthTx = false) →
    GoodState env (trace.foldl (applyStep env) st) := by
  intro trace
  induction trace with
  | nil => exact fun st h _ => h
  | cons s rest ih =>
    intro st h hns
    exact ih (applyStep env st s)
      (goodState_applyStep env st s (hns s (List.mem_cons_self s rest)) h)
      (fun s2 hs2 => hns s2 (List.mem_cons_of_mem s hs2))

/-- Helper: the empty initial state is good. -/
theorem goodState_init (env : Env) : GoodState env initState := by
  refine ⟨?_, ?_, ?_, ?_⟩
  · simp [initState]
  · intro m hm
    cases hm
  · intro m hm
    cases hm
  · intro t ht
    cases ht

/-- Helper: under the GoodState facts, the distinct-signer count of a
    transfer is realized by member signers over one shared digest. -/
theorem distinct_le_quorum (env : Env) (st : BridgeState) (id : String)
    (h2 : ∀ m ∈ st.messages, m.signer ∈ env.members)
    (h3 : ∀ m ∈ st.messages, ∃ t, lookupTransfer st m.transferID = some t ∧
        canonicalHash env t = some m.hash) :
    distinctSignerCount st id ≤ quorumCount env st id := by
  cases hf : st.messages.filter (fun m => m.transferID == id) with
  | nil =>
    have hz : distinctSignerCount st id = 0 := by
      unfold distinctSignerCount signersFor
      rw [hf]
      rfl
    rw [hz]
    exact Nat.zero_le _
  | cons m0 rest =>
    have hm0f : m0 ∈ st.messages.filter (fun m => m.transferID == id) := by
      rw [hf]
      exact List.mem_cons_self m0 rest
    have hm0mem : m0 ∈ st.messages := List.mem_of_mem_filter hm0f
    have hm0id : m0.transferID = id := by
      have := List.of_mem_filter hm0f
      exact beq_iff_eq.mp this
    have hsame : ∀ m ∈ st.messages, m.transferID = id → m.hash = m0.hash := by
      intro m hm hmid
      obtain ⟨t1, hl1, hc1⟩ := h3 m hm
      obtain ⟨t2, hl2, hc2⟩ := h3 m0 hm0mem
      rw [hmid] at hl1
      rw [hm0id] at hl2
      rw [hl1] at hl2
      have ht12 : t1 = t2 := Option.some.inj hl2
      rw [← ht12] at hc2
      rw [hc1] at hc2
      exact Option.some.inj hc2
    have hfeq : st.messages.filter (fun m =>
        m.transferID == id && m.hash == m0.hash && env.members.contains m.signer) =
        st.messages.filter (fun m => m.transferID == id) := by
      apply List.filter_congr
      intro m hm
      by_cases hmid : m.transferID = id
      · have h1b : (m.transferID == id) = true := beq_iff_eq.mpr hmid
        have hhash : (m.hash == m0.hash) = true := beq_iff_eq.mpr (hsame m hm hmid)
        have hmem : env.members.contains m.signer = true := by
          simpa using h2 m hm
        rw [h1b, hhash, hmem]
        rfl
      · have h1b : (m.transferID == id) = false := by
          simpa using hmid
        rw [h1b]
        simp
    have hlen : (memberSignersForHash env st id m0.hash).length = distinctSignerCount st id := by
      unfold memberSignersForHash distinctSignerCount signersFor
      rw [hfeq]
    have hval : (memberSignersForHash env st id m0.hash).length ∈
        (st.messages.filter (fun m => m.transferID == id)).map
          (fun m => (memberSignersForHash env st id m.hash).length) :=
      List.mem_map_of_mem _ hm0f
    have hle := le_foldr_max _ _ hval
    rw [hlen] at hle
    exact hle

/-- C1 counterexample: quorum soundness fails on the code as claimed — the
    reachable history traceC1 drives t1 to EthTxSubmitted by ingesting a
    hash message whose E-chain transaction carries zero signatures
    (VerifyEthereumTxAuthenticity never checks the signature count against
    the threshold), while the Message store holds no signature at all. -/
theorem quorumSound_counterexample : ¬ QuorumSoundClaim envA := by
  intro h
  exact absurd
    (h traceC1 ⟨"t1", "0xr", "100", "5", "10", "HBAR", "0xw", .ethTxSubmitted, some "h1"⟩
      (by decide) (by decide))
    (by decide)

/-- C1 (amended): quorum soundness holds for every history that reaches
    EthTxSubmitted through the quorum-gated elected-submitter path, i.e.
    any history free of topic EthTransaction hash-message ingestions: a
    transfer at EthTxSubmitted or later then has at least threshold many
    distinct member signers over one shared authorization digest recorded
    in the Message store. -/
theorem quorum_soundness_submitter_path (env : Env) (trace : List Step)
    (hns : ∀ s ∈ trace, s.isHandleEthTx = false) :
    ∀ t ∈ (runTrace env trace).transfers, t.status.atLeastEthTxSubmitted = true →
      env.threshold ≤ quorumCount env (runTrace env trace) t.transactionID := by
  have hg : GoodState env (runTrace env trace) :=
    goodState_fold env trace initState (goodState_init env) hns
  obtain ⟨h1, h2, h3, h4⟩ := hg
  intro t ht hat
  exact Nat.le_trans (h4 t ht hat)
    (distinct_le_quorum env (runTrace env trace) t.transactionID h2 h3)

/-- Witness for the amended C1 theorem: a concrete submitter-path history
    in which t1 reaches EthTxSubmitted with quorum recorded. -/
theorem quorum_soundness_submitter_path_witness :
    envA.threshold ≤ quorumCount envA (runTrace envA traceW1) "t1" :=
  quorum_soundness_submitter_path envA traceW1 (by decide)
    ⟨"t1", "0xr", "100", "5", "10", "HBAR", "0xw", .ethTxSubmitted, some "h9"⟩
    (by decide) (by decide)

end QuorumTheorems
